import Mathlib

/-!
Shallow embedding of the qt4to5 porting tool (src/Qt4To5.cpp).

Source locations are modelled as (validity flag, file id, byte offset);
the external clang SourceManager is modelled as a record of the queries the
tool performs on it (spelling-location resolution, token-end lookup, file
buffers, file names, failure flags).  File buffers and extracted text are
lists of characters.  Each AST match callback of the tool is translated to a
function from the bound match nodes to the list of emitted replacements;
`none` marks executions in which the C++ code has undefined behaviour (an
out-of-bounds parameter index, an unbounded newline scan, a null member
dereference, or a std::string::replace call at npos).
-/

/-- A source location: clang SourceLocation together with its decomposition
into (FileID, offset).  `valid` mirrors SourceLocation::isValid. -/
structure Loc where
  valid : Bool
  file : Nat
  offset : Nat
deriving DecidableEq

/-- An AST node as the tool uses it: only its start and end locations. -/
structure Node where
  locStart : Loc
  locEnd : Loc
deriving DecidableEq

/-- One text replacement: replace `length` bytes at `offset` in file `file`
with `text`.  `length = 0` is a pure insertion. -/
structure Edit where
  file : Nat
  offset : Nat
  length : Nat
  text : List Char
deriving DecidableEq

/-- The external location resolver and file manager, as the interface of
queries the tool performs (spelling resolution, token ends, buffers,
file names, and the failure flags clang can report). -/
structure SourceManager where
  files : Nat → List Char
  fileName : Nat → List Char
  spellingLoc : Loc → Loc
  tokenEnd : Loc → Loc
  charDataInvalid : Loc → Bool
  columnInvalid : Loc → Bool

/-- The command-line configuration (the cl::opt globals of the tool). -/
structure Config where
  sourceDir : List Char
  renameEnum : List Char
  renameClass : List Char
  renameOld : List Char
  renameNew : List Char
  createIfdefs : Bool
  portQMetaMethodSignature : Bool
  portQtEscape : Bool
  portAtomics : Bool
  portQImageText : Bool
  portViewDataChanged : Bool
deriving DecidableEq

/-- First index at which `pat` occurs in `hay` (std::string::find);
`none` is npos. -/
def strFind : List Char → List Char → Option Nat
  | [], pat => if pat.isPrefixOf [] then some 0 else none
  | h :: t, pat =>
    if pat.isPrefixOf (h :: t) then some 0 else (strFind t pat).map (· + 1)

/-- `s.replace(s.find(old), old.size(), new)`: replace the first occurrence
of `old` in `s` by `neu`.  `none` models the std::out_of_range thrown when
`find` returned npos. -/
def replaceFirst (s old neu : List Char) : Option (List Char) :=
  (strFind s old).map fun i => s.take i ++ neu ++ s.drop (i + old.length)

/-- llvm::StringRef::find(pat) != npos. -/
def strContains (hay pat : List Char) : Bool :=
  (strFind hay pat).isSome

/-- The `while (Text[eol] != '\n') ++eol;` scan: first index `≥ idx` holding
a newline.  The list argument is the buffer suffix still to scan; `none`
models the scan running off the end of the buffer (undefined behaviour). -/
def scanNl : List Char → Nat → Option Nat
  | [], _ => none
  | c :: cs, idx => if c = '\n' then some idx else scanNl cs (idx + 1)

/-- FullSourceLoc::getSpellingColumnNumber: 1-based column of `off` in
`buf`, counted from the character after the previous newline. -/
def spellingColumn (buf : List Char) (off : Nat) : Nat :=
  ((buf.take off).reverse.takeWhile (fun c => c != '\n')).length + 1

/-- getText (Qt4To5.cpp lines 135-165): the source text making up a node,
or `[]` if it cannot be found (invalid spelling location, invalid character
data, cross-file span, or an end offset before the start offset). -/
def getText (SM : SourceManager) (n : Node) : List Char :=
  let startSpelling := SM.spellingLoc n.locStart
  let endSpelling := SM.spellingLoc n.locEnd
  if !startSpelling.valid || !endSpelling.valid then [] else
  if SM.charDataInvalid startSpelling then [] else
  let text := (SM.files startSpelling.file).drop startSpelling.offset
  let start := (startSpelling.file, startSpelling.offset)
  let en := ((SM.tokenEnd endSpelling).file, (SM.tokenEnd endSpelling).offset)
  if start.1 ≠ en.1 then [] else
  if en.2 < start.2 then [] else
  text.take (en.2 - start.2)

/-- tooling::Replacement(SourceManager, Node, text): replaces the node's
token range (spelling start up to the end of the token at its spelling
end). -/
def replacementForNode (SM : SourceManager) (n : Node) (text : List Char) : Edit :=
  let s := SM.spellingLoc n.locStart
  let e := SM.tokenEnd (SM.spellingLoc n.locEnd)
  { file := s.file, offset := s.offset, length := e.offset - s.offset, text := text }

def ifdefHeader : List Char := "#if QT_VERSION < QT_VERSION_CHECK(5, 0, 0)\n".data

def elseDirective : List Char := "\n#else\n".data

def endifDirective : List Char := "\n#endif".data

/-- insertIfdef (Qt4To5.cpp lines 168-223): the two dual-mode insertions for
the line containing `n`.  Early exits (invalid locations, invalid column,
cross-file, inverted range) add no edits; `none` models the unbounded
newline scan running off the buffer. -/
def insertIfdef (SM : SourceManager) (n : Node) : Option (List Edit) :=
  let startSpelling := SM.spellingLoc n.locStart
  let endSpelling := SM.spellingLoc n.locEnd
  if !startSpelling.valid || !endSpelling.valid then some [] else
  if SM.columnInvalid startSpelling then some [] else
  let col := spellingColumn (SM.files startSpelling.file) startSpelling.offset
  let startOfLine : Loc := { startSpelling with offset := startSpelling.offset - (col - 1) }
  let text := (SM.files startOfLine.file).drop startOfLine.offset
  let start := (startOfLine.file, startOfLine.offset)
  let en := ((SM.tokenEnd endSpelling).file, (SM.tokenEnd endSpelling).offset)
  if start.1 ≠ en.1 then some [] else
  if en.2 < start.2 then some [] else
  match scanNl (text.drop (en.2 - start.2)) (en.2 - start.2) with
  | none => none
  | some eol =>
    let existingText := text.take eol
    let endOfLine := start.2 + eol
    some [ ⟨start.1, start.2, 0, ifdefHeader ++ existingText ++ elseDirective⟩,
           ⟨start.1, endOfLine, 0, endifDirective⟩ ]

/-- The bound nodes of one PortQtEscape4To5 match ("call" plus exactly one
of "ctor" / "expr" / "operator", per the anyOf in portQtEscape). -/
structure EscapeMatch where
  call : Node
  ctor : Option Node
  expr : Option Node
  op : Option Node
deriving DecidableEq

/-- The argument text selected by PortQtEscape4To5::run's conditional
chain `CTor ? ... : E ? ... : getText(..., *O)`; `none` models the null
dereference when no argument node was bound (the matcher prevents it). -/
def escapeArgText (SM : SourceManager) (m : EscapeMatch) : Option (List Char) :=
  match m.ctor with
  | some c => some (getText SM c)
  | none =>
    match m.expr with
    | some e => some (getText SM e)
    | none => m.op.map (getText SM)

/-- PortQtEscape4To5::run (Qt4To5.cpp lines 235-264). -/
def PortQtEscape4To5.run (cfg : Config) (SM : SourceManager) (m : EscapeMatch) :
    Option (List Edit) :=
  match escapeArgText SM m with
  | none => none
  | some argText =>
    if argText.isEmpty then some [] else
    let output :=
      if m.ctor.isSome || m.op.isSome
      then "QString(".data ++ argText ++ ").toHtmlEscaped()".data
      else argText ++ ".toHtmlEscaped()".data
    let direct := replacementForNode SM m.call output
    if cfg.createIfdefs then (insertIfdef SM m.call).map (fun es => direct :: es)
    else some [direct]

structure MetaMethodMatch where
  call : Node
deriving DecidableEq

/-- PortMetaMethods::run (Qt4To5.cpp lines 275-299). -/
def PortMetaMethods.run (cfg : Config) (SM : SourceManager) (m : MetaMethodMatch) :
    Option (List Edit) :=
  let argText := getText SM m.call
  if argText.isEmpty then some [] else
  match replaceFirst argText "signature".data "methodSignature".data with
  | none => none
  | some t =>
    let direct := replacementForNode SM m.call t
    if cfg.createIfdefs then (insertIfdef SM m.call).map (fun es => direct :: es)
    else some [direct]

structure AtomicMatch where
  call : Node
deriving DecidableEq

/-- PortAtomic::run (Qt4To5.cpp lines 310-329). -/
def PortAtomic.run (cfg : Config) (SM : SourceManager) (m : AtomicMatch) :
    Option (List Edit) :=
  let argText := getText SM m.call
  if argText.isEmpty then some [] else
  let direct := replacementForNode SM m.call (argText ++ ".load()".data)
  if cfg.createIfdefs then (insertIfdef SM m.call).map (fun es => direct :: es)
  else some [direct]

structure EnumMatch where
  call : Node
deriving DecidableEq

/-- PortEnum::run (Qt4To5.cpp lines 340-361).  The result of the substring
replacement is discarded by the source, but the call can still throw when
the old name is absent (modelled by `none`). -/
def PortEnum.run (cfg : Config) (SM : SourceManager) (m : EnumMatch) :
    Option (List Edit) :=
  let argText := getText SM m.call
  if argText.isEmpty then some [] else
  match replaceFirst argText cfg.renameOld cfg.renameNew with
  | none => none
  | some _ =>
    let direct := replacementForNode SM m.call cfg.renameNew
    if cfg.createIfdefs then (insertIfdef SM m.call).map (fun es => direct :: es)
    else some [direct]

/-- The CXXMethodDecl bound as "funcDecl" in portViewDataChanged. -/
structure MethodDeclInfo where
  locStart : Loc
  params : List Node
  isThisDeclarationADefinition : Bool
  hasInlineBody : Bool
deriving DecidableEq

structure ViewMatch where
  funcDecl : MethodDeclInfo
deriving DecidableEq

/-- PortView2::run (Qt4To5.cpp lines 372-409).  `none` models the
out-of-bounds getParamDecl(getNumParams() - 1) on a parameterless method. -/
def PortView2.run (cfg : Config) (SM : SourceManager) (m : ViewMatch) :
    Option (List Edit) :=
  let F := m.funcDecl
  let s := SM.spellingLoc F.locStart
  if !s.valid then some [] else
  let location := SM.fileName s.file
  if !(cfg.sourceDir.isPrefixOf location) then some [] else
  match F.params[F.params.length - 1]? with
  | none => none
  | some P =>
    let argText := getText SM P
    let newArg := "const QVector<int> &".data ++
      (if !F.isThisDeclarationADefinition || F.hasInlineBody
       then " = QVector<int>()".data else [])
    let direct := replacementForNode SM P (argText ++ ", ".data ++ newArg)
    if cfg.createIfdefs then (insertIfdef SM P).map (fun es => direct :: es)
    else some [direct]

/-- The member declaration reached through the "expr" MemberExpr binding:
the `::`-less qualified names of the methods it overrides. -/
structure MethodInfo where
  overriddenQualNames : List (List Char)
deriving DecidableEq

/-- The bound nodes of one PortRenamedMethods match: "call" plus one of
"exact" / "expr" / "func" (per the anyOf in portMethod). -/
structure RenamedMethodsMatch where
  call : Node
  exact : Option Node
  expr : Option MethodInfo
  func : Option Node
deriving DecidableEq

/-- PortRenamedMethods::run (Qt4To5.cpp lines 420-466).  When neither
"exact" nor "func" was bound it walks the overridden-method set of the
"expr" member and tests each `"::" + qualifiedName` for the configured
class name as a substring.  It never emits dual-mode edits. -/
def PortRenamedMethods.run (cfg : Config) (SM : SourceManager)
    (m : RenamedMethodsMatch) : Option (List Edit) :=
  let ovOpt : Option Bool :=
    if m.exact.isNone && m.func.isNone then
      match m.expr with
      | none => none
      | some E =>
        some (E.overriddenQualNames.any
          (fun q => strContains ("::".data ++ q) cfg.renameClass))
    else some false
  match ovOpt with
  | none => none
  | some overriddenVirtual =>
    if !(overriddenVirtual || m.exact.isSome || m.func.isSome) then some [] else
    let argText := getText SM m.call
    if argText.isEmpty then some [] else
    match replaceFirst argText cfg.renameOld cfg.renameNew with
    | none => none
    | some t => some [replacementForNode SM m.call t]

/-- The bound nodes of one RemoveArgument match: the call, the argument at
position 0 ("prevArg") and the sentinel literal at position 1 ("arg"). -/
structure RemoveArgMatch where
  call : Node
  prevArg : Node
  arg : Node
deriving DecidableEq

/-- RemoveArgument::run (Qt4To5.cpp lines 477-530): replaces the span from
the end of the token ending the preceding argument to the end of the
sentinel argument's last token with empty text. -/
def RemoveArgument.run (cfg : Config) (SM : SourceManager) (m : RemoveArgMatch) :
    Option (List Edit) :=
  let startSpelling := SM.spellingLoc m.prevArg.locEnd
  let endSpelling := SM.spellingLoc m.arg.locEnd
  if !startSpelling.valid || !endSpelling.valid then some [] else
  let start := ((SM.tokenEnd startSpelling).file, (SM.tokenEnd startSpelling).offset)
  let en := ((SM.tokenEnd endSpelling).file, (SM.tokenEnd endSpelling).offset)
  if start.1 ≠ en.1 then some [] else
  if en.2 < start.2 then some [] else
  let direct : Edit := ⟨start.1, start.2, en.2 - start.2, []⟩
  if cfg.createIfdefs then (insertIfdef SM m.call).map (fun es => direct :: es)
  else some [direct]

/-- Applies one edit to a file buffer. -/
def applyEdit (buf : List Char) (e : Edit) : List Char :=
  buf.take e.offset ++ e.text ++ buf.drop (e.offset + e.length)

/-- The seven rule-sets main can dispatch to. -/
inductive RuleKind
  | enum
  | method
  | metaMethod
  | qtEscape
  | atomics
  | qimageText
  | viewDataChanged
deriving DecidableEq

/-- Modelled from the spec: the integer results of the underlying
refactoring-tool runs (tooling::RefactoringTool::run, external to this
repository; the spec says only that the exit code is "the result of the
underlying rewrite run (0 on success)"), one per rule-set. -/
structure RuleResults where
  portEnum : Int
  portMethod : Int
  portQMetaMethodSignature : Int
  portQtEscape : Int
  portAtomics : Int
  portQImageText : Int
  portQViewDataChanged : Int
deriving DecidableEq

def ruleResult (r : RuleResults) : RuleKind → Int
  | .enum => r.portEnum
  | .method => r.portMethod
  | .metaMethod => r.portQMetaMethodSignature
  | .qtEscape => r.portQtEscape
  | .atomics => r.portAtomics
  | .qimageText => r.portQImageText
  | .viewDataChanged => r.portQViewDataChanged

/-- The selector condition main tests for each rule-set. -/
def ruleSelected (opts : Config) : RuleKind → Bool
  | .enum => decide (opts.renameEnum ≠ [])
  | .method => decide (opts.renameOld ≠ [] ∧ opts.renameNew ≠ [])
  | .metaMethod => opts.portQMetaMethodSignature
  | .qtEscape => opts.portQtEscape
  | .atomics => opts.portAtomics
  | .qimageText => opts.portQImageText
  | .viewDataChanged => opts.portViewDataChanged

/-- The order in which main tests the selectors. -/
def rulePriority : List RuleKind :=
  [.enum, .method, .metaMethod, .qtEscape, .atomics, .qimageText, .viewDataChanged]

/-- The first selector in priority order that applies. -/
def selectedRule (opts : Config) : Option RuleKind :=
  rulePriority.find? (ruleSelected opts)

/-- A source manager over a single buffer, with identity spelling
resolution and single-character tokens (token end = offset + 1), used for
concrete instantiations. -/
def simpleSM (buf : List Char) : SourceManager where
  files := fun _ => buf
  fileName := fun _ => []
  spellingLoc := fun l => l
  tokenEnd := fun l => ⟨l.valid, l.file, l.offset + 1⟩
  charDataInvalid := fun _ => false
  columnInvalid := fun _ => false

/-- A configuration with every option at its default. -/
def cfgDefault : Config :=
  ⟨[], [], [], [], [], false, false, false, false, false, false⟩

/-- A configuration for a method rename of Foo::old to Foo::neu. -/
def cfgRenameFoo : Config :=
  { cfgDefault with
    renameClass := "Foo".data, renameOld := "old".data, renameNew := "neu".data }

/-- Like `simpleSM` but with a multi-character token at offset 11
(the identifier in "Qt::escape(str)"). -/
def escapeStrSM : SourceManager :=
  { simpleSM "Qt::escape(str)".data with
    tokenEnd := fun l => ⟨l.valid, l.file, if l.offset = 11 then 14 else l.offset + 1⟩ }

/-- The selector dispatch of main (Qt4To5.cpp lines 729-750), after the
compilation database has loaded. -/
def mainRun (opts : Config) (r : RuleResults) : Int :=
  if opts.renameEnum ≠ [] then r.portEnum
  else if opts.renameOld ≠ [] ∧ opts.renameNew ≠ [] then r.portMethod
  else if opts.portQMetaMethodSignature then r.portQMetaMethodSignature
  else if opts.portQtEscape then r.portQtEscape
  else if opts.portAtomics then r.portAtomics
  else if opts.portQImageText then r.portQImageText
  else if opts.portViewDataChanged then r.portQViewDataChanged
  else 1

/-- A configuration with dual-mode (create-ifdefs) output enabled. -/
def cfgIfdefs : Config := { cfgDefault with createIfdefs := true }

/-- An invocation supplying two rule selectors at once: an enum rename and
the qt-escape port. -/
def cfgEnumEscape : Config :=
  { cfgDefault with renameEnum := "e".data, portQtEscape := true }

/-- Rule results in which the enum-rename run fails with result 1. -/
def resEnumFails : RuleResults := ⟨1, 0, 0, 0, 0, 0, 0⟩

/-! Helper lemmas about the string primitives. -/

theorem strContains_iff (hay pat : List Char) :
    strContains hay pat = true ↔ ∃ i, pat.isPrefixOf (hay.drop i) = true := by
  unfold strContains
  induction hay with
  | nil =>
    by_cases hp : pat.isPrefixOf ([] : List Char) = true
    · constructor
      · intro _
        exact ⟨0, by simpa using hp⟩
      · intro _
        rw [strFind, if_pos hp]
        rfl
    · constructor
      · intro hs
        rw [strFind, if_neg hp] at hs
        simp at hs
      · rintro ⟨i, hi⟩
        exact absurd (by simpa using hi) hp
  | cons h t ih =>
    by_cases hp : pat.isPrefixOf (h :: t) = true
    · simp only [strFind, hp, if_true, Option.isSome_some, true_iff]
      exact ⟨0, by simpa using hp⟩
    · rw [strFind, if_neg hp]
      simp only [Option.isSome_map']
      rw [ih]
      constructor
      · rintro ⟨i, hi⟩
        exact ⟨i + 1, by simpa using hi⟩
      · rintro ⟨i, hi⟩
        cases i with
        | zero => exact absurd (by simpa using hi) hp
        | succ n => exact ⟨n, by simpa using hi⟩

theorem strContains_append_left (hay x y : List Char)
    (h : strContains hay (x ++ y) = true) : strContains hay x = true := by
  rw [strContains_iff] at h ⊢
  obtain ⟨i, hi⟩ := h
  refine ⟨i, ?_⟩
  rw [List.isPrefixOf_iff_prefix] at hi ⊢
  exact (x.prefix_append y).trans hi

theorem strContains_cons (c : Char) (hay pat : List Char)
    (h : strContains hay pat = true) : strContains (c :: hay) pat = true := by
  rw [strContains_iff] at h ⊢
  obtain ⟨i, hi⟩ := h
  exact ⟨i + 1, by simpa using hi⟩

theorem scanNl_append (xs ys : List Char) (i : Nat) (h : '\n' ∉ xs) :
    scanNl (xs ++ '\n' :: ys) i = some (i + xs.length) := by
  induction xs generalizing i with
  | nil => simp [scanNl]
  | cons x xs ih =>
    have hx : ¬(x = '\n') := fun e => h (e ▸ List.mem_cons_self x xs)
    simp only [List.cons_append, scanNl, List.append_eq]
    rw [if_neg hx, ih (i + 1) (fun hm => h (List.mem_cons_of_mem _ hm))]
    congr 1
    simp only [List.length_cons]
    omega

theorem spellingColumn_decomp (A L R : List Char) (k : Nat)
    (hnl : '\n' ∉ L) (hA : A = [] ∨ ∃ A0, A = A0 ++ ['\n'])
    (hk : k ≤ L.length) :
    spellingColumn (A ++ L ++ '\n' :: R) (A.length + k) = k + 1 := by
  unfold spellingColumn
  have htake : (A ++ L ++ '\n' :: R).take (A.length + k) = A ++ L.take k := by
    rw [List.append_assoc, List.take_append]
    congr 1
    exact List.take_append_of_le_length hk
  rw [htake, List.reverse_append]
  have hall : ∀ c ∈ (L.take k).reverse, (c != '\n') = true := by
    intro c hc
    have hcL : c ∈ L := List.mem_of_mem_take (List.mem_reverse.mp hc)
    simp only [bne_iff_ne, ne_eq]
    intro e; exact hnl (e ▸ hcL)
  rw [List.takeWhile_append_of_pos hall]
  have hrest : A.reverse.takeWhile (fun c => c != '\n') = [] := by
    rcases hA with h | ⟨A0, h⟩
    · simp [h]
    · subst h
      simp [List.reverse_append]
  rw [hrest, List.append_nil, List.length_reverse, List.length_take]
  simp [Nat.min_eq_left hk]

/-- insertIfdef on a node whose match lies inside the line `L` of the
buffer `A ++ L ++ newline ++ R` (with `A` empty or newline-terminated)
emits exactly the two insertions at the start and end of that line. -/
theorem insertIfdef_line (SM : SourceManager) (n : Node) (A L R : List Char)
    (k j : Nat)
    (hs : (SM.spellingLoc n.locStart).valid = true)
    (he : (SM.spellingLoc n.locEnd).valid = true)
    (hci : SM.columnInvalid (SM.spellingLoc n.locStart) = false)
    (hfile : (SM.tokenEnd (SM.spellingLoc n.locEnd)).file =
      (SM.spellingLoc n.locStart).file)
    (hbuf : SM.files (SM.spellingLoc n.locStart).file = A ++ L ++ '\n' :: R)
    (hnl : '\n' ∉ L)
    (hA : A = [] ∨ ∃ A0, A = A0 ++ ['\n'])
    (hk : (SM.spellingLoc n.locStart).offset = A.length + k)
    (hj : (SM.tokenEnd (SM.spellingLoc n.locEnd)).offset = A.length + j)
    (hkL : k ≤ L.length) (hjL : j ≤ L.length) :
    insertIfdef SM n = some
      [ ⟨(SM.spellingLoc n.locStart).file, A.length, 0,
          ifdefHeader ++ L ++ elseDirective⟩,
        ⟨(SM.spellingLoc n.locStart).file, A.length + L.length, 0,
          endifDirective⟩ ] := by
  unfold insertIfdef
  dsimp only
  rw [hs, he, hci]
  simp only [Bool.not_true, Bool.false_or, Bool.or_self, if_false, if_neg,
    Bool.false_eq_true, ite_false]
  rw [hbuf, hk, spellingColumn_decomp A L R k hnl hA hkL]
  have hsol : A.length + k - (k + 1 - 1) = A.length := by omega
  rw [hsol, hj]
  rw [if_neg (by rw [hfile]; exact fun hne => hne rfl)]
  rw [if_neg (by omega)]
  have hdrop : (A ++ L ++ '\n' :: R).drop A.length = L ++ '\n' :: R := by
    rw [List.append_assoc]
    exact List.drop_left A (L ++ '\n' :: R)
  have hsub : A.length + j - A.length = j := by omega
  rw [hdrop, hsub]
  have hdropj : (L ++ '\n' :: R).drop j = L.drop j ++ '\n' :: R :=
    List.drop_append_of_le_length hjL
  rw [hdropj, scanNl_append (L.drop j) R j (fun hm => hnl (List.mem_of_mem_drop hm))]
  have hlen : j + (L.drop j).length = L.length := by
    rw [List.length_drop]
    omega
  rw [hlen]
  dsimp only
  rw [List.take_left]

/-- Applying, back to front, the endif insertion at the end of line `L`,
an in-place edit replacing `[k, j)` of the line with `T`, and the dual-mode
header insertion at the start of the line, yields the balanced block:
header, original line, else, rewritten line, endif. -/
theorem applyEdit_wrap (f : Nat) (A L R T H M S : List Char) (k j : Nat)
    (hkj : k ≤ j) (hjL : j ≤ L.length) :
    applyEdit (applyEdit (applyEdit (A ++ L ++ '\n' :: R)
        ⟨f, A.length + L.length, 0, S⟩)
        ⟨f, A.length + k, j - k, T⟩)
        ⟨f, A.length, 0, H ++ L ++ M⟩
    = A ++ H ++ L ++ M ++ (L.take k ++ T ++ L.drop j) ++ S ++ '\n' :: R := by
  have e1 : applyEdit (A ++ L ++ '\n' :: R) ⟨f, A.length + L.length, 0, S⟩
      = A ++ (L ++ (S ++ '\n' :: R)) := by
    show (A ++ L ++ '\n' :: R).take (A.length + L.length) ++ S ++
        (A ++ L ++ '\n' :: R).drop (A.length + L.length + 0) = _
    rw [Nat.add_zero, List.take_left' (by simp), List.drop_left' (by simp)]
    simp [List.append_assoc]
  have e2 : applyEdit (A ++ (L ++ (S ++ '\n' :: R))) ⟨f, A.length + k, j - k, T⟩
      = A ++ (L.take k ++ (T ++ (L.drop j ++ (S ++ '\n' :: R)))) := by
    show (A ++ (L ++ (S ++ '\n' :: R))).take (A.length + k) ++ T ++
        (A ++ (L ++ (S ++ '\n' :: R))).drop (A.length + k + (j - k)) = _
    have hj' : A.length + k + (j - k) = A.length + j := by omega
    rw [hj', List.take_append, List.drop_append,
      List.take_append_of_le_length (le_trans hkj hjL),
      List.drop_append_of_le_length hjL]
    simp [List.append_assoc]
  have e3 : applyEdit (A ++ (L.take k ++ (T ++ (L.drop j ++ (S ++ '\n' :: R)))))
      ⟨f, A.length, 0, H ++ L ++ M⟩
      = A ++ (H ++ L ++ M) ++ (L.take k ++ (T ++ (L.drop j ++ (S ++ '\n' :: R)))) := by
    show (A ++ (L.take k ++ (T ++ (L.drop j ++ (S ++ '\n' :: R))))).take A.length ++
        (H ++ L ++ M) ++
        (A ++ (L.take k ++ (T ++ (L.drop j ++ (S ++ '\n' :: R))))).drop (A.length + 0) = _
    rw [Nat.add_zero, List.take_left, List.drop_left]
  rw [e1, e2, e3]
  simp [List.append_assoc]

/-! Claim theorems. -/

/-- C10: PortView2::run reads the parameter at index (number of parameters
minus 1) without checking that the matched dataChanged declaration has any
parameters; on a zero-parameter method (valid location, file under the
source root) the error branch of the embedded indexing operation is
reached. -/
theorem c10_missing_param_error_reachable :
    PortView2.run cfgDefault (simpleSM [])
      ⟨⟨⟨true, 0, 0⟩, [], false, false⟩⟩ = none := by
  decide

/-- C1 counterexample: the dataChanged rule (PortView2::run) does not treat
an empty extraction as "skip this match": on a parameter whose spelling
location is invalid, getText returns the empty string, yet an edit is still
emitted for the match. -/
theorem c1_counterexample :
    getText (simpleSM []) ⟨⟨false, 0, 5⟩, ⟨false, 0, 5⟩⟩ = [] ∧
    PortView2.run cfgDefault (simpleSM [])
      ⟨⟨⟨true, 0, 0⟩, [⟨⟨false, 0, 5⟩, ⟨false, 0, 5⟩⟩], false, false⟩⟩
      = some [⟨0, 5, 1, ", const QVector<int> & = QVector<int>()".data⟩] := by
  constructor <;> decide

/-- C1 (amended): text extraction returns the empty string whenever the
start or end spelling location is invalid, the start and token-adjusted end
decompose to different files, or the resolved token-end offset precedes the
start offset; and every rule callback that guards on the extraction (the
escape, metamethod-signature, atomics, enum-rename and method-rename
rules) emits no edit for a match with empty extraction.  (The dataChanged
parameter rule performs no such guard; see the counterexample.) -/
theorem c1_empty_extraction_skips :
    (∀ (SM : SourceManager) (n : Node),
      (SM.spellingLoc n.locStart).valid = false ∨
        (SM.spellingLoc n.locEnd).valid = false →
      getText SM n = []) ∧
    (∀ (SM : SourceManager) (n : Node),
      (SM.tokenEnd (SM.spellingLoc n.locEnd)).file ≠ (SM.spellingLoc n.locStart).file →
      getText SM n = []) ∧
    (∀ (SM : SourceManager) (n : Node),
      (SM.tokenEnd (SM.spellingLoc n.locEnd)).offset < (SM.spellingLoc n.locStart).offset →
      getText SM n = []) ∧
    (∀ (cfg : Config) (SM : SourceManager) (m : EscapeMatch),
      escapeArgText SM m = some [] → PortQtEscape4To5.run cfg SM m = some []) ∧
    (∀ (cfg : Config) (SM : SourceManager) (m : MetaMethodMatch),
      getText SM m.call = [] → PortMetaMethods.run cfg SM m = some []) ∧
    (∀ (cfg : Config) (SM : SourceManager) (m : AtomicMatch),
      getText SM m.call = [] → PortAtomic.run cfg SM m = some []) ∧
    (∀ (cfg : Config) (SM : SourceManager) (m : EnumMatch),
      getText SM m.call = [] → PortEnum.run cfg SM m = some []) ∧
    (∀ (cfg : Config) (SM : SourceManager) (m : RenamedMethodsMatch),
      (m.exact.isSome || m.func.isSome || m.expr.isSome) = true →
      getText SM m.call = [] → PortRenamedMethods.run cfg SM m = some []) := by
  refine ⟨?_, ?_, ?_, ?_, ?_, ?_, ?_, ?_⟩
  · intro SM n h
    unfold getText
    dsimp only
    rcases h with h | h <;> rw [h] <;> simp
  · intro SM n h
    unfold getText
    dsimp only
    by_cases h1 : (!(SM.spellingLoc n.locStart).valid ||
        !(SM.spellingLoc n.locEnd).valid) = true
    · simp [h1]
    · by_cases h2 : SM.charDataInvalid (SM.spellingLoc n.locStart) = true
      · simp [h1, h2]
      · have hne : (SM.spellingLoc n.locStart).file ≠
            (SM.tokenEnd (SM.spellingLoc n.locEnd)).file := fun e => h e.symm
        simp [h1, h2, hne]
  · intro SM n h
    unfold getText
    dsimp only
    by_cases h1 : (!(SM.spellingLoc n.locStart).valid ||
        !(SM.spellingLoc n.locEnd).valid) = true
    · simp [h1]
    · by_cases h2 : SM.charDataInvalid (SM.spellingLoc n.locStart) = true
      · simp [h1, h2]
      · by_cases h3 : (SM.spellingLoc n.locStart).file ≠
            (SM.tokenEnd (SM.spellingLoc n.locEnd)).file
        · simp [h1, h2, h3]
        · simp [h1, h2, h3, h]
  · intro cfg SM m h
    unfold PortQtEscape4To5.run
    rw [h]
    simp
  · intro cfg SM m h
    unfold PortMetaMethods.run
    dsimp only
    rw [h]
    simp
  · intro cfg SM m h
    unfold PortAtomic.run
    dsimp only
    rw [h]
    simp
  · intro cfg SM m h
    unfold PortEnum.run
    dsimp only
    rw [h]
    simp
  · intro cfg SM m h1 h2
    unfold PortRenamedMethods.run
    dsimp only
    rcases hex : m.exact with _ | x
    · rcases hfu : m.func with _ | y
      · rcases hem : m.expr with _ | E
        · rw [hex, hfu, hem] at h1
          simp at h1
        · cases hany : E.overriddenQualNames.any
              (fun q => strContains ("::".data ++ q) cfg.renameClass)
          · simp [hany, h2]
          · simp [hany, h2]
      · simp [h2]
    · simp [h2]

/-- C1 witness: concrete instances of the amended claim: an invalid-start
node extracts empty text, and each guarding callback skips such a match. -/
theorem c1_empty_extraction_skips_witness :
    getText (simpleSM []) ⟨⟨false, 0, 0⟩, ⟨false, 0, 0⟩⟩ = [] ∧
    getText (simpleSM []) ⟨⟨true, 0, 0⟩, ⟨true, 1, 0⟩⟩ = [] ∧
    getText (simpleSM []) ⟨⟨true, 0, 5⟩, ⟨true, 0, 1⟩⟩ = [] ∧
    PortQtEscape4To5.run cfgDefault (simpleSM [])
      ⟨⟨⟨false, 0, 0⟩, ⟨false, 0, 0⟩⟩, some ⟨⟨false, 0, 0⟩, ⟨false, 0, 0⟩⟩, none, none⟩
      = some [] ∧
    PortMetaMethods.run cfgDefault (simpleSM []) ⟨⟨⟨false, 0, 0⟩, ⟨false, 0, 0⟩⟩⟩
      = some [] ∧
    PortAtomic.run cfgDefault (simpleSM []) ⟨⟨⟨false, 0, 0⟩, ⟨false, 0, 0⟩⟩⟩
      = some [] ∧
    PortEnum.run cfgDefault (simpleSM []) ⟨⟨⟨false, 0, 0⟩, ⟨false, 0, 0⟩⟩⟩
      = some [] ∧
    PortRenamedMethods.run cfgDefault (simpleSM [])
      ⟨⟨⟨false, 0, 0⟩, ⟨false, 0, 0⟩⟩, some ⟨⟨false, 0, 0⟩, ⟨false, 0, 0⟩⟩, none, none⟩
      = some [] := by
  refine ⟨?_, ?_, ?_, ?_, ?_, ?_, ?_, ?_⟩
  · exact c1_empty_extraction_skips.1 _ _ (Or.inl rfl)
  · exact c1_empty_extraction_skips.2.1 _ _ (by decide)
  · exact c1_empty_extraction_skips.2.2.1 _ _ (by decide)
  · exact c1_empty_extraction_skips.2.2.2.1 _ _ _ (by decide)
  · exact c1_empty_extraction_skips.2.2.2.2.1 _ _ _ (by decide)
  · exact c1_empty_extraction_skips.2.2.2.2.2.1 _ _ _ (by decide)
  · exact c1_empty_extraction_skips.2.2.2.2.2.2.1 _ _ _ (by decide)
  · exact c1_empty_extraction_skips.2.2.2.2.2.2.2 _ _ _ (by decide) (by decide)

/-- C8: the qualified/virtual-override method-rename rule never produces
dual-mode wrapper edits, whatever the configuration: each of its runs emits
either nothing or exactly the single direct replacement of the matched
call's range (`none` covers the undefined-behaviour executions). -/
theorem c8_renamed_methods_no_ifdef (cfg : Config) (SM : SourceManager)
    (m : RenamedMethodsMatch) :
    PortRenamedMethods.run cfg SM m = none ∨
    PortRenamedMethods.run cfg SM m = some [] ∨
    ∃ t, PortRenamedMethods.run cfg SM m = some [replacementForNode SM m.call t] := by
  unfold PortRenamedMethods.run
  dsimp only
  split
  · exact Or.inl rfl
  · split
    · exact Or.inr (Or.inl rfl)
    · split
      · exact Or.inr (Or.inl rfl)
      · split
        · exact Or.inl rfl
        · next t ht => exact Or.inr (Or.inr ⟨t, rfl⟩)

/-- C6: on a matched QImage::text / QImage::setText call whose sentinel
argument (position 1) is the literal 0, with valid spelling locations, a
same-file span and a non-inverted range, the removal rule emits exactly one
edit replacing with empty text the span from the end of the token ending
the preceding argument to the end of the sentinel argument's last token;
applying that edit removes precisely those bytes from the buffer. -/
theorem c6_argument_removal_span (cfg : Config) (SM : SourceManager)
    (m : RemoveArgMatch)
    (hifdef : cfg.createIfdefs = false)
    (hv1 : (SM.spellingLoc m.prevArg.locEnd).valid = true)
    (hv2 : (SM.spellingLoc m.arg.locEnd).valid = true)
    (hfile : (SM.tokenEnd (SM.spellingLoc m.prevArg.locEnd)).file =
      (SM.tokenEnd (SM.spellingLoc m.arg.locEnd)).file)
    (hord : (SM.tokenEnd (SM.spellingLoc m.prevArg.locEnd)).offset ≤
      (SM.tokenEnd (SM.spellingLoc m.arg.locEnd)).offset) :
    RemoveArgument.run cfg SM m = some
      [⟨(SM.tokenEnd (SM.spellingLoc m.prevArg.locEnd)).file,
        (SM.tokenEnd (SM.spellingLoc m.prevArg.locEnd)).offset,
        (SM.tokenEnd (SM.spellingLoc m.arg.locEnd)).offset -
          (SM.tokenEnd (SM.spellingLoc m.prevArg.locEnd)).offset, []⟩] ∧
    applyEdit (SM.files (SM.tokenEnd (SM.spellingLoc m.prevArg.locEnd)).file)
      ⟨(SM.tokenEnd (SM.spellingLoc m.prevArg.locEnd)).file,
        (SM.tokenEnd (SM.spellingLoc m.prevArg.locEnd)).offset,
        (SM.tokenEnd (SM.spellingLoc m.arg.locEnd)).offset -
          (SM.tokenEnd (SM.spellingLoc m.prevArg.locEnd)).offset, []⟩
      = (SM.files (SM.tokenEnd (SM.spellingLoc m.prevArg.locEnd)).file).take
          (SM.tokenEnd (SM.spellingLoc m.prevArg.locEnd)).offset ++
        (SM.files (SM.tokenEnd (SM.spellingLoc m.prevArg.locEnd)).file).drop
          (SM.tokenEnd (SM.spellingLoc m.arg.locEnd)).offset := by
  constructor
  · unfold RemoveArgument.run
    dsimp only
    rw [hv1, hv2, hifdef]
    simp [hfile, Nat.not_lt_of_le hord]
  · unfold applyEdit
    dsimp only
    rw [Nat.add_sub_cancel' hord]
    simp

/-- C6 witness: on the buffer "f(a, 0)" with the preceding argument the
token `a` (ending at offset 3) and the sentinel `0` (its token ending at
offset 6), the emitted edit removes the span [3, 6) and the buffer becomes
"f(a)". -/
theorem c6_argument_removal_span_witness :
    RemoveArgument.run cfgDefault (simpleSM "f(a, 0)".data)
      ⟨⟨⟨true, 0, 0⟩, ⟨true, 0, 6⟩⟩, ⟨⟨true, 0, 2⟩, ⟨true, 0, 2⟩⟩,
        ⟨⟨true, 0, 5⟩, ⟨true, 0, 5⟩⟩⟩
      = some [⟨0, 3, 3, []⟩] ∧
    applyEdit "f(a, 0)".data ⟨0, 3, 3, []⟩ = "f(a)".data := by
  have h := c6_argument_removal_span cfgDefault (simpleSM "f(a, 0)".data)
    ⟨⟨⟨true, 0, 0⟩, ⟨true, 0, 6⟩⟩, ⟨⟨true, 0, 2⟩, ⟨true, 0, 2⟩⟩,
      ⟨⟨true, 0, 5⟩, ⟨true, 0, 5⟩⟩⟩
    rfl rfl rfl rfl (by decide)
  exact ⟨h.1.trans (by decide), by decide⟩

/-- C7: on a matched dataChanged declaration (in a class derived from
QAbstractItemView) with a valid start location in a file under the
configured source root, the rule replaces the last parameter's text with
itself followed by ", const QVector<int> &", appending the default-value
clause " = QVector<int>()" exactly when the declaration is not an
out-of-line definition (i.e. it is not a definition, or it has an inline
body). -/
theorem c7_datachanged_parameter (cfg : Config) (SM : SourceManager)
    (m : ViewMatch) (P : Node)
    (hifdef : cfg.createIfdefs = false)
    (hs : (SM.spellingLoc m.funcDecl.locStart).valid = true)
    (hdir : cfg.sourceDir.isPrefixOf
      (SM.fileName (SM.spellingLoc m.funcDecl.locStart).file) = true)
    (hP : m.funcDecl.params[m.funcDecl.params.length - 1]? = some P) :
    PortView2.run cfg SM m = some [replacementForNode SM P
      (getText SM P ++ ", ".data ++ "const QVector<int> &".data ++
        (if m.funcDecl.isThisDeclarationADefinition = true ∧
            m.funcDecl.hasInlineBody = false
         then [] else " = QVector<int>()".data))] := by
  unfold PortView2.run
  dsimp only
  rw [hs, hdir, hP, hifdef]
  rcases hd : m.funcDecl.isThisDeclarationADefinition <;>
    rcases hb : m.funcDecl.hasInlineBody <;>
      simp [hd, hb, List.append_assoc]

/-- C7 witness: a pure declaration (not a definition) with one parameter
spanning "abc" gets the new parameter and the default-value clause. -/
theorem c7_datachanged_parameter_witness :
    PortView2.run cfgDefault (simpleSM "abc".data)
      ⟨⟨⟨true, 0, 0⟩, [⟨⟨true, 0, 0⟩, ⟨true, 0, 2⟩⟩], false, false⟩⟩
      = some [⟨0, 0, 3, "abc, const QVector<int> & = QVector<int>()".data⟩] := by
  have h := c7_datachanged_parameter cfgDefault (simpleSM "abc".data)
    ⟨⟨⟨true, 0, 0⟩, [⟨⟨true, 0, 0⟩, ⟨true, 0, 2⟩⟩], false, false⟩⟩
    ⟨⟨true, 0, 0⟩, ⟨true, 0, 2⟩⟩ rfl rfl (by decide) (by decide)
  exact h.trans (by decide)

/-- C5: on a matched ::Qt::escape call (in-place mode), when the single
argument is bound as a plain expression the whole call is replaced by the
argument text followed by ".toHtmlEscaped()"; when it is bound as a
constructed temporary or as an operator call (bound temporary or direct,
both bind "operator") the call is replaced by "QString(" ++ argument text
++ ").toHtmlEscaped()". -/
theorem c5_qt_escape_rewrite (cfg : Config) (SM : SourceManager)
    (m : EscapeMatch) (a : Node) (t : List Char)
    (hifdef : cfg.createIfdefs = false)
    (ht : getText SM a = t) (hne : t ≠ []) :
    (m.ctor = none ∧ m.op = none ∧ m.expr = some a →
      PortQtEscape4To5.run cfg SM m =
        some [replacementForNode SM m.call (t ++ ".toHtmlEscaped()".data)]) ∧
    (m.ctor = some a →
      PortQtEscape4To5.run cfg SM m =
        some [replacementForNode SM m.call
          ("QString(".data ++ t ++ ").toHtmlEscaped()".data)]) ∧
    (m.ctor = none ∧ m.expr = none ∧ m.op = some a →
      PortQtEscape4To5.run cfg SM m =
        some [replacementForNode SM m.call
          ("QString(".data ++ t ++ ").toHtmlEscaped()".data)]) := by
  have hie : t.isEmpty = false := by
    cases t
    · exact absurd rfl hne
    · rfl
  refine ⟨?_, ?_, ?_⟩
  · rintro ⟨hc, ho, he⟩
    unfold PortQtEscape4To5.run escapeArgText
    rw [hc, he, hifdef]
    dsimp only
    rw [ht, hie]
    simp [ho]
  · intro hc
    unfold PortQtEscape4To5.run escapeArgText
    rw [hc, hifdef]
    dsimp only
    rw [ht, hie]
    simp
  · rintro ⟨hc, he, ho⟩
    unfold PortQtEscape4To5.run escapeArgText
    rw [hc, he, ho, hifdef]
    dsimp only
    simp only [Option.map_some']
    rw [ht, hie]
    simp

/-- C5 witness: Qt::escape(str) (argument bound as plain expression)
becomes str.toHtmlEscaped(), and Qt::escape(a + b) (argument bound as an
operator call) becomes QString(a + b).toHtmlEscaped(). -/
theorem c5_qt_escape_rewrite_witness :
    PortQtEscape4To5.run cfgDefault escapeStrSM
      ⟨⟨⟨true, 0, 0⟩, ⟨true, 0, 14⟩⟩, none, some ⟨⟨true, 0, 11⟩, ⟨true, 0, 11⟩⟩, none⟩
      = some [⟨0, 0, 15, "str.toHtmlEscaped()".data⟩] ∧
    PortQtEscape4To5.run cfgDefault (simpleSM "Qt::escape(a + b)".data)
      ⟨⟨⟨true, 0, 0⟩, ⟨true, 0, 16⟩⟩, none, none, some ⟨⟨true, 0, 11⟩, ⟨true, 0, 15⟩⟩⟩
      = some [⟨0, 0, 17, "QString(a + b).toHtmlEscaped()".data⟩] := by
  constructor
  · have h := (c5_qt_escape_rewrite cfgDefault escapeStrSM
      ⟨⟨⟨true, 0, 0⟩, ⟨true, 0, 14⟩⟩, none, some ⟨⟨true, 0, 11⟩, ⟨true, 0, 11⟩⟩, none⟩
      ⟨⟨true, 0, 11⟩, ⟨true, 0, 11⟩⟩ "str".data rfl (by decide) (by decide)).1
      ⟨rfl, rfl, rfl⟩
    exact h.trans (by decide)
  · have h := (c5_qt_escape_rewrite cfgDefault (simpleSM "Qt::escape(a + b)".data)
      ⟨⟨⟨true, 0, 0⟩, ⟨true, 0, 16⟩⟩, none, none, some ⟨⟨true, 0, 11⟩, ⟨true, 0, 15⟩⟩⟩
      ⟨⟨true, 0, 11⟩, ⟨true, 0, 15⟩⟩ "a + b".data rfl (by decide) (by decide)).2.2
      ⟨rfl, rfl, rfl⟩
    exact h.trans (by decide)

/-- C3 counterexample: the override walk does not test overridden names for
the substring "<ConfiguredClass>::<OldName>".  With class Foo / old old /
new neu, a callee overriding only ::FooBar::old (whose qualified name does
not contain "Foo::old") is still renamed, because the code tests only for
the class name "Foo". -/
theorem c3_counterexample :
    strContains ("::".data ++ "FooBar::old".data)
      (cfgRenameFoo.renameClass ++ "::".data ++ cfgRenameFoo.renameOld) = false ∧
    PortRenamedMethods.run cfgRenameFoo (simpleSM "o.old(1)".data)
      ⟨⟨⟨true, 0, 0⟩, ⟨true, 0, 7⟩⟩, none, some ⟨["FooBar::old".data]⟩, none⟩
      = some [⟨0, 0, 8, "o.neu(1)".data⟩] := by
  constructor <;> decide

/-- C3 (amended): when only the "expr" member binding is present, the rule
walks the callee's overridden-method set and tests each method's
"::"-prefixed qualified name for the configured class name as a plain
substring; if some overridden name passes, the whole call is replaced by
the extracted call text with the first occurrence of OldName replaced by
NewName.  Any overridden name containing "<ConfiguredClass>::<OldName>"
passes that test in particular. -/
theorem c3_override_rename (cfg : Config) (SM : SourceManager)
    (m : RenamedMethodsMatch) (E : MethodInfo) (q t : List Char) (i : Nat)
    (hex : m.exact = none) (hfu : m.func = none) (hem : m.expr = some E)
    (hq : q ∈ E.overriddenQualNames)
    (hc : strContains ("::".data ++ q) cfg.renameClass = true)
    (ht : getText SM m.call = t) (hne : t ≠ [])
    (hfind : strFind t cfg.renameOld = some i) :
    PortRenamedMethods.run cfg SM m = some [replacementForNode SM m.call
      (t.take i ++ cfg.renameNew ++ t.drop (i + cfg.renameOld.length))] ∧
    ∀ q' : List Char,
      strContains q' (cfg.renameClass ++ "::".data ++ cfg.renameOld) = true →
      strContains ("::".data ++ q') cfg.renameClass = true := by
  constructor
  · have hie : t.isEmpty = false := by
      cases t
      · exact absurd rfl hne
      · rfl
    have hany : E.overriddenQualNames.any
        (fun q => strContains ("::".data ++ q) cfg.renameClass) = true :=
      List.any_eq_true.mpr ⟨q, hq, hc⟩
    unfold PortRenamedMethods.run replaceFirst
    rw [hex, hfu, hem]
    dsimp only
    rw [hany, ht, hfind, hie]
    simp
  · intro q' h'
    have h1 : strContains q' (cfg.renameClass ++ "::".data) = true :=
      strContains_append_left q' (cfg.renameClass ++ "::".data) cfg.renameOld h'
    have h2 : strContains q' cfg.renameClass = true :=
      strContains_append_left q' cfg.renameClass "::".data h1
    have e2 : "::".data ++ q' = ':' :: ':' :: q' := by
      have e1 : "::".data = [':', ':'] := by decide
      rw [e1]
      rfl
    rw [e2]
    exact strContains_cons ':' _ _ (strContains_cons ':' _ _ h2)

/-- C3 witness: with class Foo / old old / new neu, a call o.old(1) whose
callee overrides ::Foo::old is renamed to o.neu(1); and the qualified name
Foo::old contains Foo::old, hence passes the class-substring test. -/
theorem c3_override_rename_witness :
    PortRenamedMethods.run cfgRenameFoo (simpleSM "o.old(1)".data)
      ⟨⟨⟨true, 0, 0⟩, ⟨true, 0, 7⟩⟩, none, some ⟨["Foo::old".data]⟩, none⟩
      = some [⟨0, 0, 8, "o.neu(1)".data⟩] ∧
    strContains ("::".data ++ "Foo::old".data) cfgRenameFoo.renameClass = true := by
  have h := c3_override_rename cfgRenameFoo (simpleSM "o.old(1)".data)
    ⟨⟨⟨true, 0, 0⟩, ⟨true, 0, 7⟩⟩, none, some ⟨["Foo::old".data]⟩, none⟩
    ⟨["Foo::old".data]⟩ "Foo::old".data "o.old(1)".data 2
    rfl rfl rfl (by decide) (by decide) (by decide) (by decide) (by decide)
  exact ⟨h.1.trans (by decide),
    h.2 "Foo::old".data (by decide)⟩

/-- C4 counterexample: a matched call whose callee is an unqualified member
access named OldName (only the "expr" binding, here with an empty
overridden set) is NOT renamed: the branch does perform the override
check, finds no overridden name containing the configured class, and skips
the match even though the extracted text is non-empty and contains
OldName. -/
theorem c4_counterexample :
    getText (simpleSM "o.old(1)".data) ⟨⟨true, 0, 0⟩, ⟨true, 0, 7⟩⟩
      = "o.old(1)".data ∧
    PortRenamedMethods.run cfgRenameFoo (simpleSM "o.old(1)".data)
      ⟨⟨⟨true, 0, 0⟩, ⟨true, 0, 7⟩⟩, none, some ⟨[]⟩, none⟩ = some [] := by
  constructor <;> decide

/-- C4 (amended): on a matched call whose callee is an unqualified member
access named OldName (only the "expr" binding), the rule performs the
override check on that branch: it renames the call (first occurrence of
OldName replaced by NewName, whole call replaced) exactly when some
overridden method's "::"-prefixed qualified name contains the configured
class as a substring, and otherwise emits nothing. -/
theorem c4_unqualified_member_rename (cfg : Config) (SM : SourceManager)
    (m : RenamedMethodsMatch) (E : MethodInfo) (t : List Char) (i : Nat)
    (hex : m.exact = none) (hfu : m.func = none) (hem : m.expr = some E)
    (ht : getText SM m.call = t) (hne : t ≠ [])
    (hfind : strFind t cfg.renameOld = some i) :
    PortRenamedMethods.run cfg SM m =
      (if E.overriddenQualNames.any
          (fun q => strContains ("::".data ++ q) cfg.renameClass)
       then some [replacementForNode SM m.call
         (t.take i ++ cfg.renameNew ++ t.drop (i + cfg.renameOld.length))]
       else some []) := by
  have hie : t.isEmpty = false := by
    cases t
    · exact absurd rfl hne
    · rfl
  unfold PortRenamedMethods.run replaceFirst
  rw [hex, hfu, hem]
  dsimp only
  cases hany : E.overriddenQualNames.any
      (fun q => strContains ("::".data ++ q) cfg.renameClass)
  · simp
  · rw [ht, hfind, hie]
    simp

/-- C4 witness: concrete instances of both branches of the override check:
with an overridden ::Foo::old the call is renamed, with an empty overridden
set the match is skipped. -/
theorem c4_unqualified_member_rename_witness :
    PortRenamedMethods.run cfgRenameFoo (simpleSM "x.old()".data)
      ⟨⟨⟨true, 0, 0⟩, ⟨true, 0, 6⟩⟩, none, some ⟨["Foo::old".data]⟩, none⟩
      = some [⟨0, 0, 7, "x.neu()".data⟩] ∧
    PortRenamedMethods.run cfgRenameFoo (simpleSM "x.old()".data)
      ⟨⟨⟨true, 0, 0⟩, ⟨true, 0, 6⟩⟩, none, some ⟨[]⟩, none⟩
      = some [] := by
  constructor
  · have h := c4_unqualified_member_rename cfgRenameFoo (simpleSM "x.old()".data)
      ⟨⟨⟨true, 0, 0⟩, ⟨true, 0, 6⟩⟩, none, some ⟨["Foo::old".data]⟩, none⟩
      ⟨["Foo::old".data]⟩ "x.old()".data 2
      rfl rfl rfl (by decide) (by decide) (by decide)
    exact h.trans (by decide)
  · have h := c4_unqualified_member_rename cfgRenameFoo (simpleSM "x.old()".data)
      ⟨⟨⟨true, 0, 0⟩, ⟨true, 0, 6⟩⟩, none, some ⟨[]⟩, none⟩
      ⟨[]⟩ "x.old()".data 2
      rfl rfl rfl (by decide) (by decide) (by decide)
    exact h.trans (by decide)

/-- C9 counterexample: the exit code is not 1 "only when none of the
selectors applies": with two selectors supplied (enum rename and
qt-escape), the enum selector applies and its rule-set runs, yet the
process exit code is 1 when that run's result is 1 (the refactoring tool
reports failures with a nonzero result). -/
theorem c9_counterexample :
    ruleSelected cfgEnumEscape RuleKind.enum = true ∧
    ruleSelected cfgEnumEscape RuleKind.qtEscape = true ∧
    selectedRule cfgEnumEscape = some RuleKind.enum ∧
    mainRun cfgEnumEscape resEnumFails = 1 := by
  refine ⟨?_, ?_, ?_, ?_⟩ <;> decide

set_option maxHeartbeats 2000000 in
/-- C9 (amended): whatever combination of rule selectors is supplied, the
dispatch reports no error and runs exactly the first selector in the fixed
priority order (enum rename, method rename, qmetamethod-signature,
qt-escape, atomics, qimage-text, qabstractitemview-datachanged), the
process exit code is that run's result, and the fixed fallback exit code 1
is produced exactly when no selector applies. -/
theorem c9_dispatch_priority (opts : Config) (r : RuleResults) :
    mainRun opts r = (match selectedRule opts with
      | some k => ruleResult r k
      | none => 1) ∧
    (selectedRule opts = none ↔
      rulePriority.all (fun k => !ruleSelected opts k) = true) := by
  by_cases h1 : opts.renameEnum = [] <;>
    by_cases h2 : opts.renameOld = [] <;>
      by_cases h3 : opts.renameNew = [] <;>
        rcases h4 : opts.portQMetaMethodSignature <;>
          rcases h5 : opts.portQtEscape <;>
            rcases h6 : opts.portAtomics <;>
              rcases h7 : opts.portQImageText <;>
                rcases h8 : opts.portViewDataChanged <;>
                  simp [mainRun, selectedRule, rulePriority, ruleSelected,
                    ruleResult, h1, h2, h3, h4, h5, h6, h7, h8]

/-- C2 counterexample: the dataChanged rule (PortView2::run) is
wrapper-applying, but it anchors insertIfdef at its last parameter, not at
the match.  On the buffer "void f(\nint a);\n" the matched declaration
starts at offset 0 and the first column of its line is offset 0, yet with
dual mode enabled the header insertion is emitted at offset 8 (the first
column of the parameter's line) and wraps that line's text "int a);", not
the original line containing the match's start. -/
theorem c2_counterexample :
    ((simpleSM "void f(\nint a);\n".data).spellingLoc
      (⟨true, 0, 0⟩ : Loc)).offset = 0 ∧
    spellingColumn "void f(\nint a);\n".data 0 = 1 ∧
    PortView2.run cfgIfdefs (simpleSM "void f(\nint a);\n".data)
      ⟨⟨⟨true, 0, 0⟩, [⟨⟨true, 0, 8⟩, ⟨true, 0, 12⟩⟩], false, false⟩⟩
      = some [⟨0, 8, 5, "int a, const QVector<int> & = QVector<int>()".data⟩,
              ⟨0, 8, 0, ifdefHeader ++ "int a);".data ++ elseDirective⟩,
              ⟨0, 15, 0, endifDirective⟩] := by
  refine ⟨?_, ?_, ?_⟩ <;> decide

/-- C2 (amended): with dual-mode output enabled, every accepted match of a
wrapper-applying rule emits, after its own in-place edit, exactly the two
insertIfdef insertions for the rule's anchor node — the matched node for
the escape, metamethod-signature, atomics, enum-rename and argument-removal
rules, but the last parameter for the dataChanged rule (first six
conjuncts); on a buffer `A ++ L ++ newline ++ R` whose line `L` contains
the anchor, those insertions are, at the first column of that line, the
text "#if QT_VERSION < QT_VERSION_CHECK(5, 0, 0)\n" ++ line ++ "\n#else\n"
and, at the end of that line, "\n#endif" (seventh conjunct); applying the
three edits back to front yields a balanced #if/#else/#endif block
enclosing exactly one copy of the original line and one copy of the
rewritten line (eighth conjunct). -/
theorem c2_dual_mode_wrapper :
    (∀ (cfg : Config) (SM : SourceManager) (m : EscapeMatch) (t : List Char),
      cfg.createIfdefs = true → escapeArgText SM m = some t → t ≠ [] →
      PortQtEscape4To5.run cfg SM m = (insertIfdef SM m.call).map
        (fun es => replacementForNode SM m.call
          (if m.ctor.isSome || m.op.isSome
           then "QString(".data ++ t ++ ").toHtmlEscaped()".data
           else t ++ ".toHtmlEscaped()".data) :: es)) ∧
    (∀ (cfg : Config) (SM : SourceManager) (m : MetaMethodMatch) (t t' : List Char),
      cfg.createIfdefs = true → getText SM m.call = t → t ≠ [] →
      replaceFirst t "signature".data "methodSignature".data = some t' →
      PortMetaMethods.run cfg SM m = (insertIfdef SM m.call).map
        (fun es => replacementForNode SM m.call t' :: es)) ∧
    (∀ (cfg : Config) (SM : SourceManager) (m : AtomicMatch) (t : List Char),
      cfg.createIfdefs = true → getText SM m.call = t → t ≠ [] →
      PortAtomic.run cfg SM m = (insertIfdef SM m.call).map
        (fun es => replacementForNode SM m.call (t ++ ".load()".data) :: es)) ∧
    (∀ (cfg : Config) (SM : SourceManager) (m : EnumMatch) (t t' : List Char),
      cfg.createIfdefs = true → getText SM m.call = t → t ≠ [] →
      replaceFirst t cfg.renameOld cfg.renameNew = some t' →
      PortEnum.run cfg SM m = (insertIfdef SM m.call).map
        (fun es => replacementForNode SM m.call cfg.renameNew :: es)) ∧
    (∀ (cfg : Config) (SM : SourceManager) (m : RemoveArgMatch),
      cfg.createIfdefs = true →
      (SM.spellingLoc m.prevArg.locEnd).valid = true →
      (SM.spellingLoc m.arg.locEnd).valid = true →
      (SM.tokenEnd (SM.spellingLoc m.prevArg.locEnd)).file =
        (SM.tokenEnd (SM.spellingLoc m.arg.locEnd)).file →
      (SM.tokenEnd (SM.spellingLoc m.prevArg.locEnd)).offset ≤
        (SM.tokenEnd (SM.spellingLoc m.arg.locEnd)).offset →
      RemoveArgument.run cfg SM m = (insertIfdef SM m.call).map
        (fun es => (⟨(SM.tokenEnd (SM.spellingLoc m.prevArg.locEnd)).file,
          (SM.tokenEnd (SM.spellingLoc m.prevArg.locEnd)).offset,
          (SM.tokenEnd (SM.spellingLoc m.arg.locEnd)).offset -
            (SM.tokenEnd (SM.spellingLoc m.prevArg.locEnd)).offset,
          []⟩ : Edit) :: es)) ∧
    (∀ (cfg : Config) (SM : SourceManager) (m : ViewMatch) (P : Node),
      cfg.createIfdefs = true →
      (SM.spellingLoc m.funcDecl.locStart).valid = true →
      cfg.sourceDir.isPrefixOf
        (SM.fileName (SM.spellingLoc m.funcDecl.locStart).file) = true →
      m.funcDecl.params[m.funcDecl.params.length - 1]? = some P →
      PortView2.run cfg SM m = (insertIfdef SM P).map
        (fun es => replacementForNode SM P
          (getText SM P ++ ", ".data ++ "const QVector<int> &".data ++
            (if !m.funcDecl.isThisDeclarationADefinition || m.funcDecl.hasInlineBody
             then " = QVector<int>()".data else [])) :: es)) ∧
    (∀ (SM : SourceManager) (n : Node) (A L R : List Char) (k j : Nat),
      (SM.spellingLoc n.locStart).valid = true →
      (SM.spellingLoc n.locEnd).valid = true →
      SM.columnInvalid (SM.spellingLoc n.locStart) = false →
      (SM.tokenEnd (SM.spellingLoc n.locEnd)).file =
        (SM.spellingLoc n.locStart).file →
      SM.files (SM.spellingLoc n.locStart).file = A ++ L ++ '\n' :: R →
      '\n' ∉ L →
      (A = [] ∨ ∃ A0, A = A0 ++ ['\n']) →
      (SM.spellingLoc n.locStart).offset = A.length + k →
      (SM.tokenEnd (SM.spellingLoc n.locEnd)).offset = A.length + j →
      k ≤ L.length → j ≤ L.length →
      insertIfdef SM n = some
        [⟨(SM.spellingLoc n.locStart).file, A.length, 0,
            ifdefHeader ++ L ++ elseDirective⟩,
         ⟨(SM.spellingLoc n.locStart).file, A.length + L.length, 0,
            endifDirective⟩]) ∧
    (∀ (f : Nat) (A L R T : List Char) (k j : Nat), k ≤ j → j ≤ L.length →
      applyEdit (applyEdit (applyEdit (A ++ L ++ '\n' :: R)
          ⟨f, A.length + L.length, 0, endifDirective⟩)
          ⟨f, A.length + k, j - k, T⟩)
          ⟨f, A.length, 0, ifdefHeader ++ L ++ elseDirective⟩
        = A ++ ifdefHeader ++ L ++ elseDirective ++
            (L.take k ++ T ++ L.drop j) ++ endifDirective ++ '\n' :: R) := by
  refine ⟨?_, ?_, ?_, ?_, ?_, ?_, ?_, ?_⟩
  · intro cfg SM m t hifdef hat hne
    have hie : t.isEmpty = false := by
      cases t
      · exact absurd rfl hne
      · rfl
    unfold PortQtEscape4To5.run
    rw [hat, hifdef]
    dsimp only
    rw [hie]
    simp
  · intro cfg SM m t t' hifdef ht hne hrep
    have hie : t.isEmpty = false := by
      cases t
      · exact absurd rfl hne
      · rfl
    unfold PortMetaMethods.run
    dsimp only
    rw [ht, hie, hrep, hifdef]
    simp
  · intro cfg SM m t hifdef ht hne
    have hie : t.isEmpty = false := by
      cases t
      · exact absurd rfl hne
      · rfl
    unfold PortAtomic.run
    dsimp only
    rw [ht, hie, hifdef]
    simp
  · intro cfg SM m t t' hifdef ht hne hrep
    have hie : t.isEmpty = false := by
      cases t
      · exact absurd rfl hne
      · rfl
    unfold PortEnum.run
    dsimp only
    rw [ht, hie, hrep, hifdef]
    simp
  · intro cfg SM m hifdef hv1 hv2 hfile hord
    unfold RemoveArgument.run
    dsimp only
    rw [hv1, hv2, hifdef]
    simp [hfile, Nat.not_lt_of_le hord]
  · intro cfg SM m P hifdef hs hdir hP
    unfold PortView2.run
    dsimp only
    rw [hs, hdir, hP, hifdef]
    simp
  · intro SM n A L R k j hs he hci hfile hbuf hnl hA hk hj hkL hjL
    exact insertIfdef_line SM n A L R k j hs he hci hfile hbuf hnl hA hk hj hkL hjL
  · intro f A L R T k j hkj hjL
    exact applyEdit_wrap f A L R T ifdefHeader elseDirective endifDirective k j hkj hjL

/-- C2 witness: concrete instances of the amended claim: the escape rule on
"f(s)\n" and the dataChanged rule on "void f(int a);\n" each emit their
in-place edit followed by exactly the two insertions; insertIfdef on the
escape call yields the two insertions for the line "f(s)"; and applying the
three escape edits to the buffer yields the balanced block. -/
theorem c2_dual_mode_wrapper_witness :
    PortQtEscape4To5.run cfgIfdefs (simpleSM "f(s)\n".data)
      ⟨⟨⟨true, 0, 0⟩, ⟨true, 0, 3⟩⟩, none, some ⟨⟨true, 0, 2⟩, ⟨true, 0, 2⟩⟩, none⟩
      = some [⟨0, 0, 4, "s.toHtmlEscaped()".data⟩,
              ⟨0, 0, 0, ifdefHeader ++ "f(s)".data ++ elseDirective⟩,
              ⟨0, 4, 0, endifDirective⟩] ∧
    PortView2.run cfgIfdefs (simpleSM "void f(int a);\n".data)
      ⟨⟨⟨true, 0, 0⟩, [⟨⟨true, 0, 7⟩, ⟨true, 0, 11⟩⟩], false, false⟩⟩
      = some [⟨0, 7, 5, "int a, const QVector<int> & = QVector<int>()".data⟩,
              ⟨0, 0, 0, ifdefHeader ++ "void f(int a);".data ++ elseDirective⟩,
              ⟨0, 14, 0, endifDirective⟩] ∧
    insertIfdef (simpleSM "f(s)\n".data) ⟨⟨true, 0, 0⟩, ⟨true, 0, 3⟩⟩
      = some [⟨0, 0, 0, ifdefHeader ++ "f(s)".data ++ elseDirective⟩,
              ⟨0, 4, 0, endifDirective⟩] ∧
    applyEdit (applyEdit (applyEdit "f(s)\n".data
        ⟨0, 4, 0, endifDirective⟩)
        ⟨0, 0, 4, "s.toHtmlEscaped()".data⟩)
        ⟨0, 0, 0, ifdefHeader ++ "f(s)".data ++ elseDirective⟩
      = ("#if QT_VERSION < QT_VERSION_CHECK(5, 0, 0)\n" ++
          "f(s)\n#else\ns.toHtmlEscaped()\n#endif\n").data := by
  refine ⟨?_, ?_, ?_, ?_⟩
  · have h := c2_dual_mode_wrapper.1 cfgIfdefs (simpleSM "f(s)\n".data)
      ⟨⟨⟨true, 0, 0⟩, ⟨true, 0, 3⟩⟩, none, some ⟨⟨true, 0, 2⟩, ⟨true, 0, 2⟩⟩, none⟩
      "s".data rfl (by decide) (by decide)
    exact h.trans (by decide)
  · have h := c2_dual_mode_wrapper.2.2.2.2.2.1 cfgIfdefs
      (simpleSM "void f(int a);\n".data)
      ⟨⟨⟨true, 0, 0⟩, [⟨⟨true, 0, 7⟩, ⟨true, 0, 11⟩⟩], false, false⟩⟩
      ⟨⟨true, 0, 7⟩, ⟨true, 0, 11⟩⟩ rfl (by decide) (by decide) (by decide)
    exact h.trans (by decide)
  · have h := c2_dual_mode_wrapper.2.2.2.2.2.2.1 (simpleSM "f(s)\n".data)
      ⟨⟨true, 0, 0⟩, ⟨true, 0, 3⟩⟩ [] "f(s)".data [] 0 4
      (by decide) (by decide) (by decide) (by decide) (by decide) (by decide)
      (Or.inl rfl) (by decide) (by decide) (by decide) (by decide)
    exact h.trans (by decide)
  · have h := c2_dual_mode_wrapper.2.2.2.2.2.2.2 0 [] "f(s)".data []
      "s.toHtmlEscaped()".data 0 4 (by decide) (by decide)
    exact (h.symm.trans (by decide)).symm
